import Mathlib

/-!
Verification of the two scripts of JetBrains/qodana-docker with non-trivial
logic: `dockerfiles.py` (the descriptor compiler) and
`.github/scripts/release-matrix.py` (the CI matrix selector).  The Python
code is shallowly embedded: strings stay strings, the file system is an
explicit map from names (or path components) to file entries, the external
`git diff` subprocess is an exit-status oracle, and the unbounded recursion
of `substitute_from_directives` is modelled with an explicit fuel parameter
(`none` = the call has not returned within that recursion depth).
-/

/-- Python whitespace: the characters accepted by `str.isspace` and matched by
the regex class `\s` (the ASCII whitespace characters plus the Unicode
whitespace code points), given by code point. -/
def isPySpace (c : Char) : Bool :=
  c.toNat = 32 || c.toNat = 9 || c.toNat = 10 || c.toNat = 13 || c.toNat = 11 ||
  c.toNat = 12 || (28 ≤ c.toNat && c.toNat ≤ 31) || c.toNat = 133 || c.toNat = 160 ||
  c.toNat = 5760 || (8192 ≤ c.toNat && c.toNat ≤ 8202) || c.toNat = 8232 ||
  c.toNat = 8233 || c.toNat = 8239 || c.toNat = 8287 || c.toNat = 12288

/-- Python line boundaries: the characters `str.splitlines` splits on
(LF, CR, VT, FF, FS, GS, RS, NEL, LINE SEPARATOR, PARAGRAPH SEPARATOR). -/
def pyLineBoundary (c : Char) : Bool :=
  c.toNat = 10 || c.toNat = 13 || c.toNat = 11 || c.toNat = 12 ||
  c.toNat = 28 || c.toNat = 29 || c.toNat = 30 || c.toNat = 133 ||
  c.toNat = 8232 || c.toNat = 8233

/-- The regex character class `[A-Za-z-]` of `substitute_from_directives`:
ASCII letters and the hyphen. -/
def isIdentChar (c : Char) : Bool :=
  (65 ≤ c.toNat && c.toNat ≤ 90) || (97 ≤ c.toNat && c.toNat ≤ 122) || c.toNat = 45

/-- Worker for `pySplitlines`: Python `str.splitlines()` semantics, with
`"\r\n"` counting as a single boundary and no empty trailing line. -/
def pySplitlinesAux : List Char → List Char → List (List Char)
  | [], acc => if acc.isEmpty then [] else [acc.reverse]
  | '\r' :: '\n' :: rest, acc => acc.reverse :: pySplitlinesAux rest []
  | c :: rest, acc =>
    if pyLineBoundary c then acc.reverse :: pySplitlinesAux rest []
    else pySplitlinesAux rest (c :: acc)

/-- Python `content.splitlines()`. -/
def pySplitlines (s : String) : List String :=
  (pySplitlinesAux s.data []).map String.mk

/-- Python `s.rstrip()` with no argument: remove trailing whitespace. -/
def pyRstrip (s : String) : String :=
  String.mk (s.data.reverse.dropWhile isPySpace).reverse

/-- Python `variant.split("-")[0]`: the part of the string before the first
hyphen (the whole string when it has none). -/
def pySplitDashHead (s : String) : String :=
  String.mk (s.data.takeWhile (fun c => c ≠ '-'))

/-- The regex `^(FROM)\s+([A-Za-z-]+)\s*$` compiled at line 125 of
src/dockerfiles.py, applied with `re.match` to one line: returns the second
group (the identifier) when the line matches.  The quantifiers cannot
backtrack here because `\s` and `[A-Za-z-]` are disjoint character classes,
so greedy scanning is exact. -/
def matchFromList (cs : List Char) : Option (List Char) :=
  if cs.take 4 = ['F', 'R', 'O', 'M'] then
    if ((cs.drop 4).takeWhile isPySpace).isEmpty then none
    else if (((cs.drop 4).dropWhile isPySpace).takeWhile isIdentChar).isEmpty then none
    else if (((cs.drop 4).dropWhile isPySpace).dropWhile isIdentChar).all isPySpace then
      some (((cs.drop 4).dropWhile isPySpace).takeWhile isIdentChar)
    else none
  else none

/-- The directive matcher of `substitute_from_directives` on a whole line. -/
def matchFromDirective (line : String) : Option String :=
  (matchFromList line.data).map String.mk

/-- A file as the scripts can observe it: present and readable with some
content, or present (`os.path.isfile` true) but raising `OSError` on read.
An absent file is the surrounding map returning `none`. -/
inductive FileEntry where
  | readable (content : String)
  | unreadable
deriving DecidableEq

/-- Shallow embedding of `substitute_from_directives` (src/dockerfiles.py
lines 111-150).  `fragDir name` models `os.path.isfile` / `open` on
`os.path.join(base_dir, name)`.  `fuel` bounds the recursion depth, which the
Python function leaves unbounded: a result of `none` means the call has not
returned within `fuel` nested resolutions (CPython kills such a run with
`RecursionError` once its recursion limit is reached, and nothing in
dockerfiles.py catches that). -/
def substitute_from_directives (fuel : Nat) (fragDir : String → Option FileEntry)
    (content : String) : Option String :=
  match fuel with
  | 0 => none
  | fuel + 1 =>
    let lines := pySplitlines content
    let newLines := lines.foldl (fun acc line =>
      match acc with
      | none => none
      | some ls =>
        match matchFromDirective line with
        | some identifier =>
          match fragDir (identifier ++ ".Dockerfile") with
          | some (FileEntry.readable includedContent) =>
            match substitute_from_directives fuel fragDir includedContent with
            | some substitutedContent => some (pyRstrip substitutedContent :: ls)
            | none => none
          | some FileEntry.unreadable => some (line :: ls)
          | none => some (line :: ls)
        | none => some (line :: ls)) (some [])
    newLines.map (fun ls => String.intercalate "\n" ls.reverse)

/-- One line's outcome in a pass of `substitute_from_directives` with
recursion budget `fuel` for included files: a directive whose fragment file
exists and reads is replaced by the recursively resolved content with
trailing whitespace trimmed; a directive whose fragment is absent or
unreadable, and any non-directive line, passes through unchanged. -/
def resolveLine (fuel : Nat) (fragDir : String → Option FileEntry)
    (line : String) : Option String :=
  match matchFromDirective line with
  | some identifier =>
    match fragDir (identifier ++ ".Dockerfile") with
    | some (FileEntry.readable includedContent) =>
      (substitute_from_directives fuel fragDir includedContent).map pyRstrip
    | some FileEntry.unreadable => some line
    | none => some line
  | none => some line

/-- A Jinja2 template as a black-box rendering function of the five variables
`generate_variant_dockerfile` passes to `template.render` (in order:
`qd_release`, `qd_code`, `description`, `variant`, `qd_image`). -/
def Template : Type :=
  String → String → String → String → String → String

/-- One value of the `public.json` manifest: the optional fields
`generate_variant_dockerfile` reads with `data.get`.  `fromId` embeds the JSON
key `"from"` (a Lean keyword). -/
structure VariantSpec where
  fromId : Option String
  qd_code : Option String
  description : Option String
  is_third_party : Option Bool
deriving DecidableEq

/-- Shallow embedding of `generate_variant_dockerfile` (src/dockerfiles.py
lines 152-200).  Returns `some ""` when the variant is skipped (base fragment
absent, or `OSError` while reading it) and `none` when the recursive
substitution never returns within `fuel` (the uncaught `RecursionError`
case, which kills the whole run). -/
def generate_variant_dockerfile (fuel : Nat) (variant : String) (data : VariantSpec)
    (fragDir : String → Option FileEntry) (intellij thirdparty : Template)
    (release_dir : String) : Option String :=
  let base_source := data.fromId.getD variant
  match fragDir (base_source ++ ".Dockerfile") with
  | none => some ""
  | some FileEntry.unreadable => some ""
  | some (FileEntry.readable base_content) =>
    match substitute_from_directives fuel fragDir base_content with
    | none => none
    | some processed_base_content =>
      let template := if data.is_third_party.getD false then thirdparty else intellij
      let snippet := template release_dir (data.qd_code.getD "")
        (data.description.getD "") (pySplitDashHead variant) variant
      some (pyRstrip processed_base_content ++ "\n\n" ++ snippet)

/-- The fixed first line `write_dockerfile` prepends. -/
def generated_disclaimer : String :=
  "# This file was generated by https://github.com/JetBrains/qodana-docker/blob/main/dockerfiles.py. DO NOT EDIT MANUALLY."

/-- A path relative to the release directory, as components. -/
def RelPath : Type := List String

instance : DecidableEq RelPath := by
  unfold RelPath
  infer_instance

/-- Shallow embedding of `write_dockerfile` (src/dockerfiles.py lines
202-226): the file it writes, as (path, content), or `none` when the content
is empty and the variant is skipped with no directory or file created. -/
def write_dockerfile (variant : String) (dockerfile_content : String) :
    Option (RelPath × String) :=
  if dockerfile_content = "" then none
  else some ([variant, "Dockerfile"],
    generated_disclaimer ++ "\n\n" ++ dockerfile_content)

/-- The fragment directory `main` passes to every variant: names resolved
under `<release_dir>/base` (src/dockerfiles.py line 243). -/
def baseFragDir (fs : RelPath → Option FileEntry) : String → Option FileEntry :=
  fun name => fs ["base", name]

/-- Shallow embedding of the variant loop of `main` (src/dockerfiles.py lines
245-254): the list of files written, in order.  The manifest is the parsed
`public.json` as (variant, data) pairs in iteration order; the file system
`fs` maps paths relative to the release directory to entries.  `none` models
the run dying of the uncaught `RecursionError` (partial writes are not
recorded in that case). -/
def compile_variants (fuel : Nat) (manifest : List (String × VariantSpec))
    (intellij thirdparty : Template) (release_dir : String)
    (fs : RelPath → Option FileEntry) : Option (List (RelPath × String)) :=
  match manifest with
  | [] => some []
  | (variant, data) :: rest =>
    match generate_variant_dockerfile fuel variant data (baseFragDir fs)
        intellij thirdparty release_dir with
    | none => none
    | some dockerfile_content =>
      match compile_variants fuel rest intellij thirdparty release_dir fs with
      | none => none
      | some writes => some ((write_dockerfile variant dockerfile_content).toList ++ writes)

/-- Apply a list of writes to the file system: each written file becomes
readable with the written content. -/
def applyWrites (writes : List (RelPath × String))
    (fs : RelPath → Option FileEntry) : RelPath → Option FileEntry :=
  writes.foldl (fun f w => fun q => if q = w.1 then some (FileEntry.readable w.2) else f q) fs

/-- The platform list of release-matrix.py (lines 9-12). -/
def PLATFORMS : List String := ["linux/amd64", "linux/arm64"]

/-- The exclusion patterns of release-matrix.py (lines 14-23).  The source
tuple is missing a comma after `"2023.2/*"`, so Python concatenates the two
adjacent literals into the single pattern `"2023.2/*2023.3/cpp"`; the
embedding keeps that element as Python sees it. -/
def EXCLUDE_PATTERNS : List String :=
  ["2023.2/*2023.3/cpp",
   "2023.3/android",
   "2024.1/android",
   "2023.3/cnova",
   "2024.1/cnova",
   "*/ruby",
   "2025.3/*"]

/-- The runner dictionary of release-matrix.py (lines 25-28), as a function
(the script only looks up members of `PLATFORMS`). -/
def RUNNERS (platform : String) : String :=
  if platform = "linux/amd64" then "ubuntu-24.04"
  else if platform = "linux/arm64" then "ubuntu-24.04-arm"
  else ""

/-- Shell-glob matching as `fnmatch.translate` compiles it for the patterns
this script uses: `*` matches any run of characters (no path-separator
special-casing), `?` matches exactly one character, every other character
matches itself, and the whole name must be consumed (`re.fullmatch`
semantics).  Bracket classes, which none of `EXCLUDE_PATTERNS` contains, are
not modelled. -/
def globMatch : List Char → List Char → Bool
  | [], name => name.isEmpty
  | '*' :: ps, name => (name.tails).any (fun suffix => globMatch ps suffix)
  | '?' :: ps, _ :: name => globMatch ps name
  | '?' :: _, [] => false
  | p :: ps, c :: name => p = c && globMatch ps name
  | _ :: _, [] => false

/-- Python `fnmatch.fnmatch(name, pattern)` on a POSIX platform (where
`os.path.normcase` is the identity). -/
def fnmatch (name pat : String) : Bool :=
  globMatch pat.data name.data

/-- The ASCII digits of the regex class `\d` (release-matrix.py matches
version names against `20\d\d\.\d`). -/
def isPyDigit (c : Char) : Bool :=
  48 ≤ c.toNat && c.toNat ≤ 57

/-- Python `re.fullmatch(r"20\d\d\.\d", name)` as a Boolean. -/
def matchesVersionDirName (s : String) : Bool :=
  match s.data with
  | ['2', '0', a, b, '.', c] => isPyDigit a && isPyDigit b && isPyDigit c
  | _ => false

/-- The version-folder test of release-matrix.py lines 47-48: the loop
`continue`s unless the entry is named `next` or matches `20\d\d.\d`. -/
def isVersionFolder (name : String) : Bool :=
  name = "next" || matchesVersionDirName name

/-- The exclusion test of release-matrix.py line 54. -/
def isExcluded (key : String) : Bool :=
  EXCLUDE_PATTERNS.any (fun pat => fnmatch key pat)

/-- What the script raises: `RuntimeError("this is not a pull request")`, or a
re-raised `subprocess.CalledProcessError` carrying the diff tool's exit
status. -/
inductive SelectorError where
  | runtimeError
  | calledProcessError (returncode : Nat)
deriving DecidableEq

/-- Python `f"{head}"` where `head` is `os.getenv("GITHUB_SHA")`: an unset
variable formats as the literal text `None`. -/
def pyFormatOpt (o : Option String) : String :=
  match o with
  | some s => s
  | none => "None"

/-- The revision range `changed_in_this_pr` hands to
`git diff --no-patch --exit-code <range> -- <path>`. -/
def gitRange (targetBranch : String) (head : Option String) : String :=
  "origin/" ++ targetBranch ++ ".." ++ pyFormatOpt head

/-- Shallow embedding of `changed_in_this_pr` (release-matrix.py lines
30-44).  `gitDiffExit range path` is the exit status of the external
`git diff --no-patch --exit-code` call; `sp.run(..., check=True)` raises
`CalledProcessError` for any nonzero status, the function catches it and
returns `True` for status 1, re-raises otherwise, and returns `False` when no
exception was raised (status 0). -/
def changed_in_this_pr (targetBranch head : Option String)
    (gitDiffExit : String → String → Nat) (path : String) :
    Except SelectorError Bool :=
  match targetBranch with
  | none => Except.error SelectorError.runtimeError
  | some tb =>
    let code := gitDiffExit (gitRange tb head) path
    if code = 0 then Except.ok false
    else if code = 1 then Except.ok true
    else Except.error (SelectorError.calledProcessError code)

/-- One product directory as the traversal observes it: its name and whether
`<product_dir>/Dockerfile` exists. -/
structure ProductDir where
  name : String
  hasDockerfile : Bool
deriving DecidableEq

/-- One entry of `Path(".").glob("*")` as the traversal observes it: its name
and the result of globbing it for product entries (empty for plain files). -/
structure VersionDir where
  name : String
  products : List ProductDir
deriving DecidableEq

/-- One element of the emitted matrix (release-matrix.py lines 64-70). -/
structure MatrixEntry where
  version : String
  linter : String
  platform : String
  runner : String
deriving DecidableEq

/-- The two matrix entries one surviving candidate expands into. -/
def matrixEntriesFor (version linter : String) : List MatrixEntry :=
  PLATFORMS.map (fun platform =>
    { version := version, linter := linter, platform := platform,
      runner := RUNNERS platform })

/-- The diff path of release-matrix.py line 61. -/
def dockerfilePath (version product : String) : String :=
  version ++ "/" ++ product ++ "/Dockerfile"

/-- The body of the inner `for product_dir in version_dir.glob("*")` loop of
release-matrix.py (lines 50-70), one product at a time, threading the
`result` accumulator and propagating the exceptions of
`changed_in_this_pr`. -/
def selectProduct (targetBranch head : Option String)
    (gitDiffExit : String → String → Nat) (versionName : String)
    (acc : List MatrixEntry) (pd : ProductDir) :
    Except SelectorError (List MatrixEntry) :=
  if pd.name = "base" then Except.ok acc
  else if isExcluded (versionName ++ "/" ++ pd.name) then Except.ok acc
  else if ¬ pd.hasDockerfile then Except.ok acc
  else
    match targetBranch with
    | none => Except.ok (acc ++ matrixEntriesFor versionName pd.name)
    | some _ => do
      let changed ← changed_in_this_pr targetBranch head gitDiffExit
        (dockerfilePath versionName pd.name)
      if ¬ changed then pure acc
      else pure (acc ++ matrixEntriesFor versionName pd.name)

/-- Shallow embedding of the module-level traversal loop of release-matrix.py
(lines 46-70): builds the `result` list over the observed directory listing,
in iteration order. -/
def selectMatrix (dirs : List VersionDir) (targetBranch head : Option String)
    (gitDiffExit : String → String → Nat) :
    Except SelectorError (List MatrixEntry) :=
  dirs.foldlM (fun acc vd =>
    if ¬ isVersionFolder vd.name then Except.ok acc
    else vd.products.foldlM
      (selectProduct targetBranch head gitDiffExit vd.name) acc) []

/-- Sequential per-line resolution: the declarative form of one pass of the
substitution loop (spec §4.1: scan line by line, substitute matched
directives, pass everything else through). -/
def resolveLines (fuel : Nat) (fragDir : String → Option FileEntry) :
    List String → Option (List String)
  | [] => some []
  | line :: rest =>
    match resolveLine fuel fragDir line with
    | none => none
    | some r => (resolveLines fuel fragDir rest).map (fun rs => r :: rs)

/-- Declarative reading of the spec sentence "a line matching the exact
pattern `FROM <identifier>` where `<identifier>` is composed solely of
letters and hyphens": the line decomposes as the word `FROM`, at least one
whitespace character, a nonempty identifier of letters and hyphens, and
trailing whitespace. -/
def SpecFromDirective (line identifier : String) : Prop :=
  identifier.data ≠ [] ∧ (∀ c ∈ identifier.data, isIdentChar c = true) ∧
  ∃ ws1 ws2 : List Char, ws1 ≠ [] ∧ (∀ c ∈ ws1, isPySpace c = true) ∧
    (∀ c ∈ ws2, isPySpace c = true) ∧
    line.data = 'F' :: 'R' :: 'O' :: 'M' :: (ws1 ++ identifier.data ++ ws2)

/-- The two-fragment inheritance cycle of spec §8: `A FROM B`, `B FROM A`. -/
def cyclicFragDir : String → Option FileEntry := fun name =>
  if name = "A.Dockerfile" then some (FileEntry.readable "FROM B")
  else if name = "B.Dockerfile" then some (FileEntry.readable "FROM A")
  else none

/-- The pure static filter of the inner traversal loop (release-matrix.py
lines 51-59): not the `base` folder, not excluded, and a Dockerfile present,
tested in the source's order. -/
def staticKeep (versionName : String) (pd : ProductDir) : Bool :=
  if pd.name = "base" then false
  else if isExcluded (versionName ++ "/" ++ pd.name) then false
  else pd.hasDockerfile

/-- What one product contributes to the matrix in non-pull-request mode. -/
def emitProductNonPR (versionName : String) (pd : ProductDir) : List MatrixEntry :=
  if staticKeep versionName pd then matrixEntriesFor versionName pd.name else []

/-- What one directory entry contributes to the matrix in non-pull-request
mode. -/
def emitNonPR (vd : VersionDir) : List MatrixEntry :=
  if isVersionFolder vd.name then vd.products.flatMap (emitProductNonPR vd.name)
  else []

/-- The diff tool's exit status for one candidate in pull-request mode. -/
def exitCode (tb : String) (head : Option String)
    (gitDiffExit : String → String → Nat) (versionName productName : String) : Nat :=
  gitDiffExit (gitRange tb head) (dockerfilePath versionName productName)

/-- What one product contributes to the matrix in pull-request mode, when the
run does not fail. -/
def emitProductPR (tb : String) (head : Option String)
    (gitDiffExit : String → String → Nat) (versionName : String)
    (pd : ProductDir) : List MatrixEntry :=
  if staticKeep versionName pd ∧ exitCode tb head gitDiffExit versionName pd.name = 1
  then matrixEntriesFor versionName pd.name else []

/-- What one directory entry contributes in pull-request mode, when the run
does not fail. -/
def emitPR (tb : String) (head : Option String)
    (gitDiffExit : String → String → Nat) (vd : VersionDir) : List MatrixEntry :=
  if isVersionFolder vd.name then vd.products.flatMap (emitProductPR tb head gitDiffExit vd.name)
  else []

/-- A surviving candidate's diff outcome is unambiguous: exit status 0 or 1. -/
def goodProduct (tb : String) (head : Option String)
    (gitDiffExit : String → String → Nat) (versionName : String)
    (pd : ProductDir) : Prop :=
  staticKeep versionName pd →
    exitCode tb head gitDiffExit versionName pd.name = 0 ∨
    exitCode tb head gitDiffExit versionName pd.name = 1

/-- Every surviving candidate of the listing has an unambiguous diff
outcome. -/
def allGood (tb : String) (head : Option String)
    (gitDiffExit : String → String → Nat) (dirs : List VersionDir) : Prop :=
  ∀ vd ∈ dirs, isVersionFolder vd.name = true →
    ∀ pd ∈ vd.products, goodProduct tb head gitDiffExit vd.name pd

/-- A (version, product) pair is an eligible candidate of the listing: some
version folder of that name holds a product entry of that name (the `base`
folder is not a product) that carries a Dockerfile and is not excluded. -/
def candidateEligible (dirs : List VersionDir) (v p : String) : Prop :=
  ∃ vd ∈ dirs, vd.name = v ∧ isVersionFolder v = true ∧
    ∃ pd ∈ vd.products, pd.name = p ∧ staticKeep v pd = true

/-- A diff oracle reporting "no differences" on every query. -/
def zeroDiffOracle : String → String → Nat := fun _ _ => 0

/-- One filesystem state (a version folder with products `clang` and `go`,
both with Dockerfiles), observed in one iteration order... -/
def stateClangGo : List VersionDir :=
  [⟨"2024.1", [⟨"clang", true⟩, ⟨"go", true⟩]⟩]

/-- ...and the same filesystem state observed in the other iteration order. -/
def stateGoClang : List VersionDir :=
  [⟨"2024.1", [⟨"go", true⟩, ⟨"clang", true⟩]⟩]

/-- The spec §8 exclusion example: products `ruby` and `rust` under version
`2024.1`, both with Dockerfiles. -/
def stateRubyRust : List VersionDir :=
  [⟨"2024.1", [⟨"ruby", true⟩, ⟨"rust", true⟩]⟩]

/-- A listing with a `base` folder carrying a Dockerfile next to a product. -/
def stateBaseGo : List VersionDir :=
  [⟨"2024.1", [⟨"base", true⟩, ⟨"go", true⟩]⟩]

/-- A template rendering a fixed string, for concrete instances. -/
def constTemplate : Template := fun _ _ _ _ _ => "SNIPPET"

/-- A concrete release file system: one fragment `go.Dockerfile` under
`base/`. -/
def fsGo : RelPath → Option FileEntry := fun p =>
  if p = ["base", "go.Dockerfile"] then some (FileEntry.readable "RUN build\n")
  else none

/-- A one-variant manifest naming the fragment `go`. -/
def manifestGo : List (String × VariantSpec) :=
  [("go", ⟨none, some "QDGO", some "Qodana for Go", none⟩)]

/-- The writes of the first compiler run over `fsGo` (empty when that run
fails, which `c8_idempotent_witness` shows it does not). -/
def fsGoWrites : List (RelPath × String) :=
  (compile_variants 2 manifestGo constTemplate constTemplate "2024.1" fsGo).getD []

lemma identChar_not_pySpace {c : Char} (h : isIdentChar c = true) : isPySpace c = false := by
  simp only [isIdentChar, Bool.or_eq_true, Bool.and_eq_true, decide_eq_true_eq] at h
  simp only [isPySpace, Bool.or_eq_false_iff, Bool.and_eq_false_iff, decide_eq_false_iff_not]
  omega

lemma pySpace_not_identChar {c : Char} (h : isPySpace c = true) : isIdentChar c = false := by
  cases hi : isIdentChar c
  · rfl
  · rw [identChar_not_pySpace hi] at h
    cases h

lemma takeWhile_all_append {p : Char → Bool} (l1 l2 : List Char)
    (h1 : ∀ c ∈ l1, p c = true) (h2 : ∀ c, l2.head? = some c → p c = false) :
    (l1 ++ l2).takeWhile p = l1 ∧ (l1 ++ l2).dropWhile p = l2 := by
  induction l1 with
  | nil =>
    simp only [List.nil_append]
    cases l2 with
    | nil => simp
    | cons c cs =>
      have := h2 c rfl
      simp [List.takeWhile_cons, List.dropWhile_cons, this]
  | cons a l1 ih =>
    have ha : p a = true := h1 a (by simp)
    have := ih (fun c hc => h1 c (by simp [hc]))
    simp [List.takeWhile_cons, List.dropWhile_cons, ha, this.1, this.2]

lemma matchFromList_some_iff (cs ident : List Char) :
    matchFromList cs = some ident ↔
      (ident ≠ [] ∧ (∀ c ∈ ident, isIdentChar c = true) ∧
       ∃ ws1 ws2 : List Char, ws1 ≠ [] ∧ (∀ c ∈ ws1, isPySpace c = true) ∧
         (∀ c ∈ ws2, isPySpace c = true) ∧
         cs = 'F' :: 'R' :: 'O' :: 'M' :: (ws1 ++ ident ++ ws2)) := by
  constructor
  · intro h
    unfold matchFromList at h
    split_ifs at h with h4 hws hid hall
    all_goals cases h
    refine ⟨by simpa using hid, fun c hc => List.mem_takeWhile_imp hc, ?_⟩
    refine ⟨(cs.drop 4).takeWhile isPySpace,
      ((cs.drop 4).dropWhile isPySpace).dropWhile isIdentChar,
      by simpa using hws, fun c hc => List.mem_takeWhile_imp hc,
      fun c hc => by simpa using List.all_eq_true.mp hall c hc, ?_⟩
    have e1 : cs = cs.take 4 ++ cs.drop 4 := (List.take_append_drop 4 cs).symm
    rw [h4] at e1
    have e2 : cs.drop 4 =
        (cs.drop 4).takeWhile isPySpace ++ (cs.drop 4).dropWhile isPySpace :=
      (List.takeWhile_append_dropWhile _ _).symm
    have e3 : (cs.drop 4).dropWhile isPySpace =
        ((cs.drop 4).dropWhile isPySpace).takeWhile isIdentChar ++
        ((cs.drop 4).dropWhile isPySpace).dropWhile isIdentChar :=
      (List.takeWhile_append_dropWhile _ _).symm
    calc cs = ['F','R','O','M'] ++ cs.drop 4 := e1
      _ = _ := by rw [e2, e3]; simp [List.append_assoc]
  · rintro ⟨hne, hident, ws1, ws2, hws1ne, hws1, hws2, rfl⟩
    have hhead : ∀ c, (ident ++ ws2).head? = some c → isPySpace c = false := by
      intro c hc
      cases ident with
      | nil => exact absurd rfl hne
      | cons i is =>
        simp only [List.cons_append, List.head?_cons, Option.some.injEq] at hc
        rw [← hc]
        exact identChar_not_pySpace (hident i (by simp))
    have hhead2 : ∀ c, ws2.head? = some c → isIdentChar c = false := by
      intro c hc
      cases ws2 with
      | nil => cases hc
      | cons w ws =>
        simp only [List.head?_cons, Option.some.injEq] at hc
        rw [← hc]
        exact pySpace_not_identChar (hws2 w (by simp))
    have hdrop : ('F' :: 'R' :: 'O' :: 'M' :: (ws1 ++ ident ++ ws2)).drop 4
        = ws1 ++ ident ++ ws2 := rfl
    have htake : ('F' :: 'R' :: 'O' :: 'M' :: (ws1 ++ ident ++ ws2)).take 4
        = ['F','R','O','M'] := rfl
    have hsplit1 := takeWhile_all_append ws1 (ident ++ ws2) hws1 hhead
    have hsplit2 := takeWhile_all_append ident ws2 hident hhead2
    unfold matchFromList
    rw [htake, if_pos rfl, hdrop]
    rw [List.append_assoc, hsplit1.1, hsplit1.2, hsplit2.1, hsplit2.2]
    rw [if_neg (by simpa using hws1ne), if_neg (by simpa using hne),
      if_pos (List.all_eq_true.mpr hws2)]

lemma matchFromDirective_some_iff (line identifier : String) :
    matchFromDirective line = some identifier ↔ SpecFromDirective line identifier := by
  unfold matchFromDirective SpecFromDirective
  rw [Option.map_eq_some']
  constructor
  · rintro ⟨l, hl, rfl⟩
    exact (matchFromList_some_iff line.data l).mp hl
  · rintro ⟨hne, hident, hex⟩
    exact ⟨identifier.data, (matchFromList_some_iff line.data identifier.data).mpr
      ⟨hne, hident, hex⟩, rfl⟩

lemma foldl_resolveLines (fuel : Nat) (fragDir : String → Option FileEntry)
    (f : Option (List String) → String → Option (List String))
    (hnone : ∀ line, f none line = none)
    (hstep : ∀ ls line, f (some ls) line = (resolveLine fuel fragDir line).map (fun r => r :: ls)) :
    ∀ (ls : List String) (acc : List String),
      ls.foldl f (some acc) = (resolveLines fuel fragDir ls).map (fun rs => rs.reverse ++ acc) := by
  intro ls
  induction ls with
  | nil => intro acc; simp [resolveLines]
  | cons line rest ih =>
    intro acc
    rw [List.foldl_cons, hstep]
    cases hr : resolveLine fuel fragDir line with
    | none =>
      have hall : ∀ l : List String, List.foldl f none l = none := by
        intro l
        induction l with
        | nil => rfl
        | cons x xs ihx => rw [List.foldl_cons, hnone]; exact ihx
      simp [resolveLines, hr, hall]
    | some r =>
      simp only [Option.map_some']
      rw [ih (r :: acc)]
      simp only [resolveLines, hr]
      cases hrest : resolveLines fuel fragDir rest <;>
        simp [List.reverse_cons, List.append_assoc]

lemma substitute_from_directives_succ (fuel : Nat)
    (fragDir : String → Option FileEntry) (content : String) :
    substitute_from_directives (fuel + 1) fragDir content
      = (resolveLines fuel fragDir (pySplitlines content)).map (String.intercalate "\n") := by
  have hstep : ∀ (ls : List String) (line : String),
      (fun (acc : Option (List String)) (line : String) =>
        match acc with
        | none => none
        | some ls =>
          match matchFromDirective line with
          | some identifier =>
            match fragDir (identifier ++ ".Dockerfile") with
            | some (FileEntry.readable includedContent) =>
              match substitute_from_directives fuel fragDir includedContent with
              | some substitutedContent => some (pyRstrip substitutedContent :: ls)
              | none => none
            | some FileEntry.unreadable => some (line :: ls)
            | none => some (line :: ls)
          | none => some (line :: ls)) (some ls) line
        = (resolveLine fuel fragDir line).map (fun r => r :: ls) := by
    intro ls line
    simp only []
    cases hm : matchFromDirective line with
    | none => simp [resolveLine, hm]
    | some identifier =>
      cases hf : fragDir (identifier ++ ".Dockerfile") with
      | none => simp [resolveLine, hm, hf]
      | some entry =>
        cases entry with
        | unreadable => simp [resolveLine, hm, hf]
        | readable includedContent =>
          cases hs : substitute_from_directives fuel fragDir includedContent with
          | none => simp [resolveLine, hm, hf, hs]
          | some s => simp [resolveLine, hm, hf, hs]
  rw [show substitute_from_directives (fuel + 1) fragDir content
      = ((pySplitlines content).foldl (fun (acc : Option (List String)) (line : String) =>
        match acc with
        | none => none
        | some ls =>
          match matchFromDirective line with
          | some identifier =>
            match fragDir (identifier ++ ".Dockerfile") with
            | some (FileEntry.readable includedContent) =>
              match substitute_from_directives fuel fragDir includedContent with
              | some substitutedContent => some (pyRstrip substitutedContent :: ls)
              | none => none
            | some FileEntry.unreadable => some (line :: ls)
            | none => some (line :: ls)
          | none => some (line :: ls)) (some [])).map
        (fun ls => String.intercalate "\n" ls.reverse) from rfl]
  rw [foldl_resolveLines fuel fragDir _ (fun _ => rfl) hstep (pySplitlines content) []]
  cases h : resolveLines fuel fragDir (pySplitlines content) <;> simp

lemma cyclic_subst_none (fuel : Nat) :
    substitute_from_directives fuel cyclicFragDir "FROM A" = none ∧
    substitute_from_directives fuel cyclicFragDir "FROM B" = none := by
  induction fuel with
  | zero => exact ⟨rfl, rfl⟩
  | succ n ih =>
    constructor
    · rw [substitute_from_directives_succ,
        show pySplitlines "FROM A" = ["FROM A"] from rfl]
      simp [resolveLines, resolveLine,
        show matchFromDirective "FROM A" = some "A" from rfl,
        show cyclicFragDir "A.Dockerfile" = some (FileEntry.readable "FROM B") from rfl,
        ih.2]
    · rw [substitute_from_directives_succ,
        show pySplitlines "FROM B" = ["FROM B"] from rfl]
      simp [resolveLines, resolveLine,
        show matchFromDirective "FROM B" = some "B" from rfl,
        show cyclicFragDir "B.Dockerfile" = some (FileEntry.readable "FROM A") from rfl,
        ih.1]

lemma selectProduct_none_eq (head : Option String) (g : String → String → Nat)
    (versionName : String) (acc : List MatrixEntry) (pd : ProductDir) :
    selectProduct none head g versionName acc pd
      = Except.ok (acc ++ emitProductNonPR versionName pd) := by
  unfold selectProduct emitProductNonPR staticKeep
  split_ifs <;> simp_all

lemma products_foldlM_none (head : Option String) (g : String → String → Nat)
    (versionName : String) :
    ∀ (products : List ProductDir) (acc : List MatrixEntry),
      products.foldlM (selectProduct none head g versionName) acc
        = Except.ok (acc ++ products.flatMap (emitProductNonPR versionName)) := by
  intro products
  induction products with
  | nil =>
    intro acc
    simp only [List.foldlM_nil, List.flatMap_nil, List.append_nil]
    rfl
  | cons pd rest ih =>
    intro acc
    rw [List.foldlM_cons, selectProduct_none_eq]
    show (rest.foldlM (selectProduct none head g versionName)
      (acc ++ emitProductNonPR versionName pd)) = _
    rw [ih]
    simp [List.append_assoc]

lemma selectMatrix_none_eq (dirs : List VersionDir) (head : Option String)
    (g : String → String → Nat) :
    selectMatrix dirs none head g = Except.ok (dirs.flatMap emitNonPR) := by
  suffices h : ∀ (ds : List VersionDir) (acc : List MatrixEntry),
      ds.foldlM (fun acc vd =>
        if ¬ isVersionFolder vd.name then Except.ok acc
        else vd.products.foldlM (selectProduct none head g vd.name) acc) acc
      = Except.ok (acc ++ ds.flatMap emitNonPR) by
    have := h dirs []
    simpa [selectMatrix] using this
  intro ds
  induction ds with
  | nil =>
    intro acc
    simp only [List.foldlM_nil, List.flatMap_nil, List.append_nil]
    rfl
  | cons vd rest ih =>
    intro acc
    rw [List.foldlM_cons]
    by_cases hv : isVersionFolder vd.name
    · simp only [hv, not_true_eq_false, if_false]
      rw [show (vd.products.foldlM (selectProduct none head g vd.name) acc >>= fun acc' =>
          rest.foldlM (fun acc vd =>
            if ¬ isVersionFolder vd.name then Except.ok acc
            else vd.products.foldlM (selectProduct none head g vd.name) acc) acc')
          = (vd.products.foldlM (selectProduct none head g vd.name) acc >>= fun acc' =>
          rest.foldlM (fun acc vd =>
            if ¬ isVersionFolder vd.name then Except.ok acc
            else vd.products.foldlM (selectProduct none head g vd.name) acc) acc') from rfl]
      rw [products_foldlM_none]
      show rest.foldlM _ (acc ++ vd.products.flatMap (emitProductNonPR vd.name)) = _
      rw [ih]
      simp [emitNonPR, hv, List.append_assoc]
    · simp only [hv, not_false_eq_true, if_true]
      show rest.foldlM _ acc = _
      rw [ih]
      simp [emitNonPR, hv]

lemma selectProduct_some_eq (tb : String) (head : Option String)
    (g : String → String → Nat) (versionName : String)
    (acc : List MatrixEntry) (pd : ProductDir) :
    selectProduct (some tb) head g versionName acc pd
      = if staticKeep versionName pd ∧
            ¬(exitCode tb head g versionName pd.name = 0 ∨
              exitCode tb head g versionName pd.name = 1)
        then Except.error (SelectorError.calledProcessError
          (exitCode tb head g versionName pd.name))
        else Except.ok (acc ++ emitProductPR tb head g versionName pd) := by
  unfold selectProduct emitProductPR staticKeep exitCode changed_in_this_pr
  split_ifs <;> simp_all <;> rfl

lemma products_foldlM_some_ok (tb : String) (head : Option String)
    (g : String → String → Nat) (versionName : String) :
    ∀ (products : List ProductDir) (acc : List MatrixEntry),
      (∀ pd ∈ products, goodProduct tb head g versionName pd) →
      products.foldlM (selectProduct (some tb) head g versionName) acc
        = Except.ok (acc ++ products.flatMap (emitProductPR tb head g versionName)) := by
  intro products
  induction products with
  | nil =>
    intro acc _
    simp only [List.foldlM_nil, List.flatMap_nil, List.append_nil]
    rfl
  | cons pd rest ih =>
    intro acc hgood
    rw [List.foldlM_cons, selectProduct_some_eq]
    rw [if_neg (by
      intro ⟨hk, hbad⟩
      exact hbad (hgood pd (by simp) hk))]
    show (rest.foldlM (selectProduct (some tb) head g versionName)
      (acc ++ emitProductPR tb head g versionName pd)) = _
    rw [ih _ (fun q hq => hgood q (by simp [hq]))]
    simp [List.append_assoc]

lemma products_foldlM_some_error (tb : String) (head : Option String)
    (g : String → String → Nat) (versionName : String) :
    ∀ (products : List ProductDir) (acc : List MatrixEntry),
      (∃ pd ∈ products, ¬ goodProduct tb head g versionName pd) →
      ∃ rc, rc ≠ 0 ∧ rc ≠ 1 ∧
        products.foldlM (selectProduct (some tb) head g versionName) acc
          = Except.error (SelectorError.calledProcessError rc) := by
  intro products
  induction products with
  | nil => rintro acc ⟨pd, hpd, -⟩; cases hpd
  | cons q rest ih =>
    rintro acc ⟨pd, hpd, hbad⟩
    rw [List.foldlM_cons, selectProduct_some_eq]
    by_cases hq : staticKeep versionName q ∧
        ¬(exitCode tb head g versionName q.name = 0 ∨
          exitCode tb head g versionName q.name = 1)
    · refine ⟨exitCode tb head g versionName q.name, fun h0 => hq.2 (Or.inl h0),
        fun h1 => hq.2 (Or.inr h1), ?_⟩
      rw [if_pos hq]
      rfl
    · rw [if_neg hq]
      rcases List.mem_cons.mp hpd with rfl | hrest
      · exact absurd (fun hk => by
          by_contra hcontra
          exact hq ⟨hk, by
            intro hor
            exact hbad (fun _ => hor)⟩) hbad
      · exact ih _ ⟨pd, hrest, hbad⟩

lemma selectMatrix_some_ok (dirs : List VersionDir) (tb : String)
    (head : Option String) (g : String → String → Nat)
    (h : allGood tb head g dirs) :
    selectMatrix dirs (some tb) head g
      = Except.ok (dirs.flatMap (emitPR tb head g)) := by
  suffices hs : ∀ (ds : List VersionDir) (acc : List MatrixEntry),
      (∀ vd ∈ ds, isVersionFolder vd.name = true →
        ∀ pd ∈ vd.products, goodProduct tb head g vd.name pd) →
      ds.foldlM (fun acc vd =>
        if ¬ isVersionFolder vd.name then Except.ok acc
        else vd.products.foldlM (selectProduct (some tb) head g vd.name) acc) acc
      = Except.ok (acc ++ ds.flatMap (emitPR tb head g)) by
    have := hs dirs [] h
    simpa [selectMatrix] using this
  intro ds
  induction ds with
  | nil =>
    intro acc _
    simp only [List.foldlM_nil, List.flatMap_nil, List.append_nil]
    rfl
  | cons vd rest ih =>
    intro acc hgood
    rw [List.foldlM_cons]
    by_cases hv : isVersionFolder vd.name
    · simp only [hv, not_true_eq_false, if_false]
      rw [products_foldlM_some_ok tb head g vd.name vd.products acc
        (fun pd hpd => hgood vd (by simp) hv pd hpd)]
      show rest.foldlM _ (acc ++ vd.products.flatMap (emitProductPR tb head g vd.name)) = _
      rw [ih _ (fun w hw => hgood w (by simp [hw]))]
      simp [emitPR, hv, List.append_assoc]
    · simp only [hv, not_false_eq_true, if_true]
      show rest.foldlM _ acc = _
      rw [ih _ (fun w hw => hgood w (by simp [hw]))]
      simp [emitPR, hv]

lemma selectMatrix_some_error (dirs : List VersionDir) (tb : String)
    (head : Option String) (g : String → String → Nat)
    (h : ¬ allGood tb head g dirs) :
    ∃ rc, rc ≠ 0 ∧ rc ≠ 1 ∧
      selectMatrix dirs (some tb) head g
        = Except.error (SelectorError.calledProcessError rc) := by
  suffices hs : ∀ (ds : List VersionDir) (acc : List MatrixEntry),
      (∃ vd ∈ ds, isVersionFolder vd.name = true ∧
        ∃ pd ∈ vd.products, ¬ goodProduct tb head g vd.name pd) →
      ∃ rc, rc ≠ 0 ∧ rc ≠ 1 ∧
        ds.foldlM (fun acc vd =>
          if ¬ isVersionFolder vd.name then Except.ok acc
          else vd.products.foldlM (selectProduct (some tb) head g vd.name) acc) acc
        = Except.error (SelectorError.calledProcessError rc) by
    unfold allGood at h
    push_neg at h
    obtain ⟨vd, hvd, hv, pd, hpd, hbad⟩ := h
    exact hs dirs [] ⟨vd, hvd, hv, pd, hpd, hbad⟩
  intro ds
  induction ds with
  | nil => rintro acc ⟨vd, hvd, -⟩; cases hvd
  | cons w rest ih =>
    rintro acc ⟨vd, hvd, hv, pd, hpd, hbad⟩
    rw [List.foldlM_cons]
    rcases List.mem_cons.mp hvd with rfl | hvrest
    · simp only [hv, not_true_eq_false, if_false]
      obtain ⟨rc, h0, h1, herr⟩ := products_foldlM_some_error tb head g vd.name
        vd.products acc ⟨pd, hpd, hbad⟩
      refine ⟨rc, h0, h1, ?_⟩
      rw [herr]
      rfl
    · by_cases hw : isVersionFolder w.name
      · simp only [hw, not_true_eq_false, if_false]
        cases hr : w.products.foldlM (selectProduct (some tb) head g w.name) acc with
        | error e =>
          obtain ⟨rc, h0, h1, herr⟩ : ∃ rc, rc ≠ 0 ∧ rc ≠ 1 ∧
              w.products.foldlM (selectProduct (some tb) head g w.name) acc
                = Except.error (SelectorError.calledProcessError rc) := by
            by_cases hallw : ∀ pd ∈ w.products, goodProduct tb head g w.name pd
            · rw [products_foldlM_some_ok tb head g w.name w.products acc hallw] at hr
              cases hr
            · push_neg at hallw
              obtain ⟨q, hq, hbq⟩ := hallw
              exact products_foldlM_some_error tb head g w.name w.products acc ⟨q, hq, hbq⟩
          rw [hr] at herr
          injection herr with he
          subst he
          exact ⟨rc, h0, h1, rfl⟩
        | ok acc' =>
          obtain ⟨rc, h0, h1, herr⟩ := ih acc' ⟨vd, hvrest, hv, pd, hpd, hbad⟩
          refine ⟨rc, h0, h1, ?_⟩
          show rest.foldlM _ acc' = _
          exact herr
      · simp only [hw, not_false_eq_true, if_true]
        obtain ⟨rc, h0, h1, herr⟩ := ih acc ⟨vd, hvrest, hv, pd, hpd, hbad⟩
        refine ⟨rc, h0, h1, ?_⟩
        show rest.foldlM _ acc = _
        exact herr

lemma selectMatrix_some_ok_iff (dirs : List VersionDir) (tb : String)
    (head : Option String) (g : String → String → Nat) (m : List MatrixEntry) :
    selectMatrix dirs (some tb) head g = Except.ok m ↔
      allGood tb head g dirs ∧ m = dirs.flatMap (emitPR tb head g) := by
  constructor
  · intro h
    by_cases hg : allGood tb head g dirs
    · rw [selectMatrix_some_ok dirs tb head g hg] at h
      cases h
      exact ⟨hg, rfl⟩
    · obtain ⟨rc, -, -, herr⟩ := selectMatrix_some_error dirs tb head g hg
      rw [herr] at h
      cases h
  · rintro ⟨hg, rfl⟩
    exact selectMatrix_some_ok dirs tb head g hg

lemma generate_skip (fuel : Nat) (variant : String) (data : VariantSpec)
    (fragDir : String → Option FileEntry) (ij tp : Template) (rdir : String)
    (h : fragDir ((data.fromId.getD variant) ++ ".Dockerfile") = none) :
    generate_variant_dockerfile fuel variant data fragDir ij tp rdir = some "" := by
  simp only [generate_variant_dockerfile, h]

lemma generate_unreadable (fuel : Nat) (variant : String) (data : VariantSpec)
    (fragDir : String → Option FileEntry) (ij tp : Template) (rdir : String)
    (h : fragDir ((data.fromId.getD variant) ++ ".Dockerfile") = some FileEntry.unreadable) :
    generate_variant_dockerfile fuel variant data fragDir ij tp rdir = some "" := by
  simp only [generate_variant_dockerfile, h]

lemma compile_variants_cons (fuel : Nat) (v : String) (d : VariantSpec)
    (rest : List (String × VariantSpec)) (ij tp : Template) (rdir : String)
    (fs : RelPath → Option FileEntry) :
    compile_variants fuel ((v, d) :: rest) ij tp rdir fs =
      match generate_variant_dockerfile fuel v d (baseFragDir fs) ij tp rdir with
      | none => none
      | some c =>
        match compile_variants fuel rest ij tp rdir fs with
        | none => none
        | some ws => some ((write_dockerfile v c).toList ++ ws) := rfl

lemma compile_variants_drop_skipped (fuel : Nat) (variant : String)
    (data : VariantSpec) (ij tp : Template) (rdir : String)
    (fs : RelPath → Option FileEntry)
    (h : generate_variant_dockerfile fuel variant data (baseFragDir fs) ij tp rdir
      = some "") :
    ∀ m1 m2 : List (String × VariantSpec),
      compile_variants fuel (m1 ++ (variant, data) :: m2) ij tp rdir fs
        = compile_variants fuel (m1 ++ m2) ij tp rdir fs := by
  intro m1
  induction m1 with
  | nil =>
    intro m2
    show compile_variants fuel ((variant, data) :: m2) ij tp rdir fs
      = compile_variants fuel m2 ij tp rdir fs
    rw [compile_variants_cons, h]
    cases hc : compile_variants fuel m2 ij tp rdir fs with
    | none => rfl
    | some ws => simp [write_dockerfile]
  | cons q m1 ih =>
    intro m2
    obtain ⟨qv, qd⟩ := q
    show compile_variants fuel ((qv, qd) :: (m1 ++ (variant, data) :: m2)) ij tp rdir fs
      = compile_variants fuel ((qv, qd) :: (m1 ++ m2)) ij tp rdir fs
    rw [compile_variants_cons, compile_variants_cons]
    cases hq : generate_variant_dockerfile fuel qv qd (baseFragDir fs) ij tp rdir with
    | none => rfl
    | some c => rw [ih m2]

lemma substitute_congr (fd₁ fd₂ : String → Option FileEntry)
    (h : ∀ x, fd₁ (x ++ ".Dockerfile") = fd₂ (x ++ ".Dockerfile")) :
    ∀ (fuel : Nat) (content : String),
      substitute_from_directives fuel fd₁ content
        = substitute_from_directives fuel fd₂ content := by
  intro fuel
  induction fuel with
  | zero => intro content; rfl
  | succ n ih =>
    intro content
    have hline : ∀ line, resolveLine n fd₁ line = resolveLine n fd₂ line := by
      intro line
      unfold resolveLine
      cases hm : matchFromDirective line with
      | none => rfl
      | some identifier =>
        dsimp only
        rw [h identifier]
        cases hf : fd₂ (identifier ++ ".Dockerfile") with
        | none => rfl
        | some entry =>
          cases entry with
          | unreadable => rfl
          | readable c =>
            dsimp only
            rw [ih c]
    have hlines : ∀ ls, resolveLines n fd₁ ls = resolveLines n fd₂ ls := by
      intro ls
      induction ls with
      | nil => rfl
      | cons l rest ihl =>
        unfold resolveLines
        rw [hline l, ihl]
    rw [substitute_from_directives_succ, substitute_from_directives_succ, hlines]

lemma generate_congr (fuel : Nat) (variant : String) (data : VariantSpec)
    (fd₁ fd₂ : String → Option FileEntry) (ij tp : Template) (rdir : String)
    (h : ∀ x, fd₁ (x ++ ".Dockerfile") = fd₂ (x ++ ".Dockerfile")) :
    generate_variant_dockerfile fuel variant data fd₁ ij tp rdir
      = generate_variant_dockerfile fuel variant data fd₂ ij tp rdir := by
  simp only [generate_variant_dockerfile]
  rw [h (data.fromId.getD variant)]
  cases hf : fd₂ ((data.fromId.getD variant) ++ ".Dockerfile") with
  | none => rfl
  | some entry =>
    cases entry with
    | unreadable => rfl
    | readable c =>
      dsimp only
      rw [substitute_congr fd₁ fd₂ h fuel c]

lemma compile_variants_congr (fuel : Nat) (ij tp : Template) (rdir : String)
    (fs₁ fs₂ : RelPath → Option FileEntry)
    (h : ∀ x, baseFragDir fs₁ (x ++ ".Dockerfile") = baseFragDir fs₂ (x ++ ".Dockerfile")) :
    ∀ manifest : List (String × VariantSpec),
      compile_variants fuel manifest ij tp rdir fs₁
        = compile_variants fuel manifest ij tp rdir fs₂ := by
  intro manifest
  induction manifest with
  | nil => rfl
  | cons q rest ih =>
    obtain ⟨qv, qd⟩ := q
    rw [compile_variants_cons, compile_variants_cons,
      generate_congr fuel qv qd (baseFragDir fs₁) (baseFragDir fs₂) ij tp rdir h, ih]

lemma compile_variants_write_paths (fuel : Nat) (ij tp : Template) (rdir : String)
    (fs : RelPath → Option FileEntry) :
    ∀ (manifest : List (String × VariantSpec)) (ws : List (RelPath × String)),
      compile_variants fuel manifest ij tp rdir fs = some ws →
      ∀ w ∈ ws, ∃ v : String, w.1 = [v, "Dockerfile"] := by
  intro manifest
  induction manifest with
  | nil =>
    intro ws h w hw
    cases h
    cases hw
  | cons q rest ih =>
    obtain ⟨qv, qd⟩ := q
    intro ws h w hw
    rw [compile_variants_cons] at h
    cases hq : generate_variant_dockerfile fuel qv qd (baseFragDir fs) ij tp rdir with
    | none => rw [hq] at h; cases h
    | some c =>
      rw [hq] at h
      cases hc : compile_variants fuel rest ij tp rdir fs with
      | none => rw [hc] at h; cases h
      | some ws' =>
        rw [hc] at h
        injection h with h
        subst h
        rcases List.mem_append.mp hw with hw1 | hw2
        · unfold write_dockerfile at hw1
          split_ifs at hw1 with hempty
          · cases hw1
          · simp only [Option.toList_some, List.mem_singleton] at hw1
            subst hw1
            exact ⟨qv, rfl⟩
        · exact ih ws' hc w hw2

lemma dockerfile_name_ne (x : String) : x ++ ".Dockerfile" ≠ "Dockerfile" := by
  intro h
  have hlen := congrArg String.length h
  rw [String.length_append] at hlen
  have h1 : String.length ".Dockerfile" = 11 := rfl
  have h2 : String.length "Dockerfile" = 10 := rfl
  omega

lemma applyWrites_baseFragDir (fs : RelPath → Option FileEntry) :
    ∀ (ws : List (RelPath × String)),
      (∀ w ∈ ws, ∃ v : String, w.1 = [v, "Dockerfile"]) →
      ∀ x : String, baseFragDir (applyWrites ws fs) (x ++ ".Dockerfile")
        = baseFragDir fs (x ++ ".Dockerfile") := by
  intro ws
  induction ws generalizing fs with
  | nil => intro _ x; rfl
  | cons w ws ih =>
    intro h x
    show baseFragDir (applyWrites ws
      (fun q => if q = w.1 then some (FileEntry.readable w.2) else fs q)) (x ++ ".Dockerfile") = _
    rw [ih (fun q => if q = w.1 then some (FileEntry.readable w.2) else fs q)
      (fun w' hw' => h w' (List.mem_cons_of_mem w hw')) x]
    obtain ⟨v, hv⟩ := h w (List.mem_cons_self w ws)
    show (if (["base", x ++ ".Dockerfile"] : RelPath) = w.1 then some (FileEntry.readable w.2)
      else fs ["base", x ++ ".Dockerfile"]) = _
    have hne : (["base", x ++ ".Dockerfile"] : RelPath) ≠ w.1 := by
      rw [hv]
      intro heq
      injection heq with h1 h2
      injection h2 with h3 h4
      exact dockerfile_name_ne x h3
    rw [if_neg hne]
    rfl

lemma resolveLine_unreadable (fuel : Nat) (fragDir : String → Option FileEntry)
    (line identifier : String) (hm : matchFromDirective line = some identifier)
    (hf : fragDir (identifier ++ ".Dockerfile") = some FileEntry.unreadable) :
    resolveLine fuel fragDir line = some line := by
  unfold resolveLine
  rw [hm]
  dsimp only
  rw [hf]

lemma resolveLines_cons (fuel : Nat) (fragDir : String → Option FileEntry)
    (line : String) (rest : List String) :
    resolveLines fuel fragDir (line :: rest) =
      match resolveLine fuel fragDir line with
      | none => none
      | some r => (resolveLines fuel fragDir rest).map (fun rs => r :: rs) := rfl

lemma resolveLines_append (fuel : Nat) (fragDir : String → Option FileEntry) :
    ∀ (l1 l2 : List String) (r1 r2 : List String),
      resolveLines fuel fragDir l1 = some r1 →
      resolveLines fuel fragDir l2 = some r2 →
      resolveLines fuel fragDir (l1 ++ l2) = some (r1 ++ r2) := by
  intro l1
  induction l1 with
  | nil =>
    intro l2 r1 r2 h1 h2
    injection h1 with h1
    subst h1
    simpa using h2
  | cons line rest ih =>
    intro l2 r1 r2 h1 h2
    rw [resolveLines_cons] at h1
    cases hl : resolveLine fuel fragDir line with
    | none => rw [hl] at h1; cases h1
    | some r =>
      rw [hl] at h1
      dsimp only at h1
      cases hr : resolveLines fuel fragDir rest with
      | none => rw [hr] at h1; cases h1
      | some rs =>
        rw [hr] at h1
        injection h1 with h1
        subst h1
        show resolveLines fuel fragDir (line :: (rest ++ l2)) = _
        rw [resolveLines_cons, hl]
        dsimp only
        rw [ih l2 rs r2 hr h2]
        rfl

lemma matrixEntriesFor_eq (v p : String) :
    matrixEntriesFor v p =
      [⟨v, p, "linux/amd64", "ubuntu-24.04"⟩, ⟨v, p, "linux/arm64", "ubuntu-24.04-arm"⟩] := rfl

lemma mem_matrixEntriesFor {v p : String} {x : MatrixEntry} :
    x ∈ matrixEntriesFor v p ↔
      x = ⟨v, p, "linux/amd64", "ubuntu-24.04"⟩ ∨
      x = ⟨v, p, "linux/arm64", "ubuntu-24.04-arm"⟩ := by
  rw [matrixEntriesFor_eq]
  simp

lemma staticKeep_ne_base {v : String} {pd : ProductDir}
    (h : staticKeep v pd = true) : pd.name ≠ "base" := by
  unfold staticKeep at h
  split_ifs at h
  all_goals simp_all

lemma mem_if_nil {c : Prop} [Decidable c] {l : List MatrixEntry} {x : MatrixEntry} :
    x ∈ (if c then l else []) ↔ c ∧ x ∈ l := by
  split_ifs with h <;> simp [h]

lemma mem_emitNonPR {vd : VersionDir} {x : MatrixEntry} :
    x ∈ emitNonPR vd ↔ isVersionFolder vd.name = true ∧
      ∃ pd ∈ vd.products, staticKeep vd.name pd = true ∧
        x ∈ matrixEntriesFor vd.name pd.name := by
  unfold emitNonPR emitProductNonPR
  rw [mem_if_nil]
  simp only [List.mem_flatMap, mem_if_nil]

lemma mem_emitPR {tb : String} {head : Option String} {g : String → String → Nat}
    {vd : VersionDir} {x : MatrixEntry} :
    x ∈ emitPR tb head g vd ↔ isVersionFolder vd.name = true ∧
      ∃ pd ∈ vd.products, staticKeep vd.name pd = true ∧
        exitCode tb head g vd.name pd.name = 1 ∧
        x ∈ matrixEntriesFor vd.name pd.name := by
  unfold emitPR emitProductPR
  rw [mem_if_nil]
  simp only [List.mem_flatMap, mem_if_nil]
  all_goals tauto

lemma version_of_mem_matrixEntriesFor {v p : String} {x : MatrixEntry}
    (h : x ∈ matrixEntriesFor v p) : x.version = v ∧ x.linter = p := by
  rcases mem_matrixEntriesFor.mp h with rfl | rfl <;> exact ⟨rfl, rfl⟩

lemma matrix_pair_ne (v p : String) :
    (⟨v, p, "linux/amd64", "ubuntu-24.04"⟩ : MatrixEntry)
      ≠ ⟨v, p, "linux/arm64", "ubuntu-24.04-arm"⟩ := by
  intro h
  injection h with h1 h2 h3 h4
  exact absurd h3 (by decide)

lemma count_pair {a b e : MatrixEntry} (hne : a ≠ b) (he : e = a ∨ e = b) :
    ([a, b] : List MatrixEntry).count e = 1 := by
  rcases he with rfl | rfl
  · simp [List.count_cons, hne]
  · simp [List.count_cons, Ne.symm hne]

lemma count_emitProductNonPR_pos {v : String} {e : MatrixEntry} {q : ProductDir}
    (hk : staticKeep v q = true) (he : e ∈ matrixEntriesFor v q.name) :
    (emitProductNonPR v q).count e = 1 := by
  unfold emitProductNonPR
  rw [if_pos hk, matrixEntriesFor_eq]
  exact count_pair (matrix_pair_ne v q.name) (by simpa using mem_matrixEntriesFor.mp he)

lemma count_emitProductNonPR_zero {v : String} {e : MatrixEntry} {q : ProductDir}
    (h : ¬ (q.name = e.linter ∧ staticKeep v q = true)) :
    (emitProductNonPR v q).count e = 0 := by
  rw [List.count_eq_zero]
  intro hmem
  unfold emitProductNonPR at hmem
  rcases mem_if_nil.mp hmem with ⟨hk, hx⟩
  exact h ⟨((version_of_mem_matrixEntriesFor hx).2).symm, hk⟩

lemma count_products_pos {v p : String} {e : MatrixEntry}
    (he : e ∈ matrixEntriesFor v p) (hl : e.linter = p) :
    ∀ products : List ProductDir,
      (products.map ProductDir.name).Nodup →
      (∃ pd ∈ products, pd.name = p ∧ staticKeep v pd = true) →
      (products.flatMap (emitProductNonPR v)).count e = 1 := by
  intro products
  induction products with
  | nil => rintro _ ⟨pd, hmem, -⟩; cases hmem
  | cons q rest ih =>
    intro hnd hex
    rw [List.flatMap_cons, List.count_append]
    rcases hex with ⟨pd, hmem, hname, hkeep⟩
    rcases List.mem_cons.mp hmem with rfl | hrest
    · have hone : (emitProductNonPR v pd).count e = 1 :=
        count_emitProductNonPR_pos hkeep (hname ▸ he)
      have hzero : (rest.flatMap (emitProductNonPR v)).count e = 0 := by
        rw [List.count_eq_zero]
        intro hmem2
        rcases List.mem_flatMap.mp hmem2 with ⟨q', hq', hx⟩
        rcases mem_if_nil.mp (by simpa [emitProductNonPR] using hx) with ⟨hk', hx'⟩
        have : q'.name = p := by
          rw [← hl]
          exact ((version_of_mem_matrixEntriesFor hx').2).symm
        have hnotin : pd.name ∉ rest.map ProductDir.name := by
          simpa using (List.nodup_cons.mp hnd).1
        exact hnotin (by
          rw [hname, ← this]
          exact List.mem_map_of_mem ProductDir.name hq')
      omega
    · have hql : ¬ (q.name = e.linter ∧ staticKeep v q = true) := by
        rintro ⟨hq1, -⟩
        have hnotin : q.name ∉ rest.map ProductDir.name := by
          simpa using (List.nodup_cons.mp hnd).1
        exact hnotin (by
          rw [hq1, hl, ← hname]
          exact List.mem_map_of_mem ProductDir.name hrest)
      rw [count_emitProductNonPR_zero hql,
        ih (List.nodup_cons.mp hnd).2 ⟨pd, hrest, hname, hkeep⟩]

lemma count_emitNonPR_zero {e : MatrixEntry} {vd : VersionDir}
    (h : vd.name ≠ e.version) : (emitNonPR vd).count e = 0 := by
  rw [List.count_eq_zero]
  intro hmem
  rcases mem_emitNonPR.mp hmem with ⟨-, pd, -, -, hx⟩
  exact h (version_of_mem_matrixEntriesFor hx).1.symm

lemma count_dirs_pos {v p : String} {e : MatrixEntry}
    (he : e ∈ matrixEntriesFor v p) (hv : e.version = v) (hl : e.linter = p) :
    ∀ dirs : List VersionDir,
      (dirs.map VersionDir.name).Nodup →
      (∀ vd ∈ dirs, (vd.products.map ProductDir.name).Nodup) →
      candidateEligible dirs v p →
      (dirs.flatMap emitNonPR).count e = 1 := by
  intro dirs
  induction dirs with
  | nil => rintro _ _ ⟨vd, hmem, -⟩; cases hmem
  | cons w rest ih =>
    intro hnd hpn hel
    rw [List.flatMap_cons, List.count_append]
    rcases hel with ⟨vd, hmem, hname, hvf, pd, hpd, hpname, hkeep⟩
    rcases List.mem_cons.mp hmem with rfl | hrest
    · have hone : (emitNonPR vd).count e = 1 := by
        unfold emitNonPR
        rw [if_pos (hname ▸ hvf)]
        have := count_products_pos (hname ▸ he) hl vd.products
          (hpn vd (List.mem_cons_self vd rest))
          ⟨pd, hpd, hpname, hname ▸ hkeep⟩
        exact hname ▸ this
      have hzero : (rest.flatMap emitNonPR).count e = 0 := by
        rw [List.count_eq_zero]
        intro hmem2
        rcases List.mem_flatMap.mp hmem2 with ⟨w', hw', hx⟩
        rcases mem_emitNonPR.mp hx with ⟨-, pd', -, -, hx'⟩
        have hw'name : w'.name = v := by
          rw [← hv]
          exact ((version_of_mem_matrixEntriesFor hx').1).symm
        have hnotin : vd.name ∉ rest.map VersionDir.name := by
          simpa using (List.nodup_cons.mp hnd).1
        exact hnotin (by
          rw [hname, ← hw'name]
          exact List.mem_map_of_mem VersionDir.name hw')
      omega
    · have hwzero : (emitNonPR w).count e = 0 := by
        apply count_emitNonPR_zero
        intro hwv
        have hnotin : w.name ∉ rest.map VersionDir.name := by
          simpa using (List.nodup_cons.mp hnd).1
        exact hnotin (by
          rw [hwv, hv, ← hname]
          exact List.mem_map_of_mem VersionDir.name hrest)
      rw [hwzero, ih (List.nodup_cons.mp hnd).2
        (fun vd' hvd' => hpn vd' (List.mem_cons_of_mem w hvd'))
        ⟨vd, hrest, hname, hvf, pd, hpd, hpname, hkeep⟩]

lemma count_dirs_neg {v p : String} {e : MatrixEntry}
    (hv : e.version = v) (hl : e.linter = p) :
    ∀ dirs : List VersionDir, ¬ candidateEligible dirs v p →
      (dirs.flatMap emitNonPR).count e = 0 := by
  intro dirs hnel
  rw [List.count_eq_zero]
  intro hmem
  rcases List.mem_flatMap.mp hmem with ⟨vd, hvd, hx⟩
  rcases mem_emitNonPR.mp hx with ⟨hvf, pd, hpd, hkeep, hx'⟩
  obtain ⟨hxv, hxl⟩ := version_of_mem_matrixEntriesFor hx'
  refine hnel ⟨vd, hvd, ?_, ?_, pd, hpd, ?_, ?_⟩
  · rw [← hv, ← hxv]
  · rw [← hv, hxv]; exact hvf
  · rw [← hl, ← hxl]
  · rw [← hv, hxv]; exact hkeep

/-- C1: the claim says resolving either fragment of the cycle `A FROM B`,
`B FROM A` raises a `CyclicInheritanceError` naming the identifiers on the
cycle and terminates.  The code has no cycle guard and no such error class:
on that cycle, `substitute_from_directives` does not return at any recursion
depth whatsoever (CPython aborts the run with `RecursionError` at its
recursion limit). -/
theorem c1_cycle_resolution_never_returns (fuel : Nat) :
    substitute_from_directives fuel cyclicFragDir "FROM A" = none ∧
    substitute_from_directives fuel cyclicFragDir "FROM B" = none :=
  cyclic_subst_none fuel

/-- C2: in pull-request mode the change filter maps the diff tool's exit
status exactly as: 0 (no diff) drops the candidate, 1 (diff present) keeps
it, and any other status propagates as a hard failure of the whole selection
run (never silently treated as unchanged): the first three conjuncts state
the mapping of `changed_in_this_pr` itself; the fourth states that a
successful run's matrix holds exactly the statically surviving candidates
whose exit status was 1; the fifth that one surviving candidate with an
ambiguous status fails the whole run. -/
theorem c2_change_filter_exit_status_mapping :
    (∀ (tb : String) (head : Option String) (g : String → String → Nat) (path : String),
      g (gitRange tb head) path = 0 →
      changed_in_this_pr (some tb) head g path = Except.ok false) ∧
    (∀ (tb : String) (head : Option String) (g : String → String → Nat) (path : String),
      g (gitRange tb head) path = 1 →
      changed_in_this_pr (some tb) head g path = Except.ok true) ∧
    (∀ (tb : String) (head : Option String) (g : String → String → Nat) (path : String),
      g (gitRange tb head) path ≠ 0 → g (gitRange tb head) path ≠ 1 →
      changed_in_this_pr (some tb) head g path
        = Except.error (SelectorError.calledProcessError (g (gitRange tb head) path))) ∧
    (∀ (dirs : List VersionDir) (tb : String) (head : Option String)
        (g : String → String → Nat) (m : List MatrixEntry),
      selectMatrix dirs (some tb) head g = Except.ok m →
      ∀ x, x ∈ m ↔ ∃ vd ∈ dirs, isVersionFolder vd.name = true ∧
        ∃ pd ∈ vd.products, staticKeep vd.name pd = true ∧
          exitCode tb head g vd.name pd.name = 1 ∧
          x ∈ matrixEntriesFor vd.name pd.name) ∧
    (∀ (dirs : List VersionDir) (tb : String) (head : Option String)
        (g : String → String → Nat),
      (∃ vd ∈ dirs, isVersionFolder vd.name = true ∧
        ∃ pd ∈ vd.products, staticKeep vd.name pd = true ∧
          exitCode tb head g vd.name pd.name ≠ 0 ∧
          exitCode tb head g vd.name pd.name ≠ 1) →
      ∃ rc, rc ≠ 0 ∧ rc ≠ 1 ∧
        selectMatrix dirs (some tb) head g
          = Except.error (SelectorError.calledProcessError rc)) := by
  refine ⟨?_, ?_, ?_, ?_, ?_⟩
  · intro tb head g path h
    unfold changed_in_this_pr
    dsimp only
    rw [if_pos h]
  · intro tb head g path h
    unfold changed_in_this_pr
    dsimp only
    rw [if_neg (by omega), if_pos h]
  · intro tb head g path h0 h1
    unfold changed_in_this_pr
    dsimp only
    rw [if_neg h0, if_neg h1]
  · intro dirs tb head g m h x
    rcases (selectMatrix_some_ok_iff dirs tb head g m).mp h with ⟨-, rfl⟩
    simp only [List.mem_flatMap]
    constructor
    · rintro ⟨vd, hvd, hx⟩
      rcases mem_emitPR.mp hx with ⟨hv, pd, hpd, hk, he, hmem⟩
      exact ⟨vd, hvd, hv, pd, hpd, hk, he, hmem⟩
    · rintro ⟨vd, hvd, hv, pd, hpd, hk, he, hmem⟩
      exact ⟨vd, hvd, mem_emitPR.mpr ⟨hv, pd, hpd, hk, he, hmem⟩⟩
  · rintro dirs tb head g ⟨vd, hvd, hv, pd, hpd, hk, h0, h1⟩
    apply selectMatrix_some_error
    intro hgood
    rcases hgood vd hvd hv pd hpd hk with h | h
    · exact h0 h
    · exact h1 h

/-- C3: a line is an inclusion directive exactly when it decomposes as
`FROM`, whitespace, a nonempty identifier of letters and hyphens, and
trailing whitespace (first conjunct); one pass of
`substitute_from_directives` processes `content.splitlines()` line by line
with `resolveLine` and joins the results with newlines (second conjunct);
and per line: a directive whose fragment file exists and reads is replaced
by the recursively resolved content with trailing whitespace trimmed, a
directive whose fragment file does not exist passes through unchanged, and a
non-directive line passes through unchanged (remaining conjuncts). -/
theorem c3_line_resolution_semantics :
    (∀ line identifier,
      matchFromDirective line = some identifier ↔ SpecFromDirective line identifier) ∧
    (∀ (fuel : Nat) (fragDir : String → Option FileEntry) (content : String),
      substitute_from_directives (fuel + 1) fragDir content
        = (resolveLines fuel fragDir (pySplitlines content)).map (String.intercalate "\n")) ∧
    (∀ (fuel : Nat) (fragDir : String → Option FileEntry) (line identifier
        includedContent resolved : String),
      matchFromDirective line = some identifier →
      fragDir (identifier ++ ".Dockerfile") = some (FileEntry.readable includedContent) →
      substitute_from_directives fuel fragDir includedContent = some resolved →
      resolveLine fuel fragDir line = some (pyRstrip resolved)) ∧
    (∀ (fuel : Nat) (fragDir : String → Option FileEntry) (line identifier : String),
      matchFromDirective line = some identifier →
      fragDir (identifier ++ ".Dockerfile") = none →
      resolveLine fuel fragDir line = some line) ∧
    (∀ (fuel : Nat) (fragDir : String → Option FileEntry) (line : String),
      matchFromDirective line = none →
      resolveLine fuel fragDir line = some line) := by
  refine ⟨matchFromDirective_some_iff, substitute_from_directives_succ, ?_, ?_, ?_⟩
  · intro fuel fragDir line identifier includedContent resolved hm hf hs
    unfold resolveLine
    rw [hm]
    dsimp only
    rw [hf]
    dsimp only
    rw [hs]
    rfl
  · intro fuel fragDir line identifier hm hf
    unfold resolveLine
    rw [hm]
    dsimp only
    rw [hf]
  · intro fuel fragDir line hm
    unfold resolveLine
    rw [hm]

/-- C4: the claim says two runs over the same filesystem state produce
identical matrix arrays even under different directory-iteration orders,
because entries are emitted sorted by version, product and platform.  The
code does no sorting: over the same single-version state holding products
`clang` and `go` (the two listings below are permutations of one another),
the two iteration orders produce differently ordered matrix arrays. -/
theorem c4_matrix_order_follows_iteration_order :
    ([⟨"clang", true⟩, ⟨"go", true⟩] : List ProductDir).Perm
      [⟨"go", true⟩, ⟨"clang", true⟩] ∧
    selectMatrix stateClangGo none none zeroDiffOracle
      = Except.ok (matrixEntriesFor "2024.1" "clang" ++ matrixEntriesFor "2024.1" "go") ∧
    selectMatrix stateGoClang none none zeroDiffOracle
      = Except.ok (matrixEntriesFor "2024.1" "go" ++ matrixEntriesFor "2024.1" "clang") ∧
    matrixEntriesFor "2024.1" "clang" ++ matrixEntriesFor "2024.1" "go"
      ≠ matrixEntriesFor "2024.1" "go" ++ matrixEntriesFor "2024.1" "clang" :=
  ⟨by decide, rfl, rfl, by decide⟩

/-- C5: in non-pull-request mode (no target-ref signal) the diff oracle is
never consulted (first conjunct: the result is the same under every oracle),
the run always succeeds with the per-directory expansion (second conjunct),
and the matrix holds exactly one entry per platform — `linux/amd64` on
runner `ubuntu-24.04` and `linux/arm64` on `ubuntu-24.04-arm` — for every
eligible candidate (in a version directory, not the `base` folder, with a
Dockerfile, matching no exclusion pattern), and none for anything else. -/
theorem c5_nonpr_full_rebuild (dirs : List VersionDir) (head : Option String)
    (g g' : String → String → Nat)
    (hvn : (dirs.map VersionDir.name).Nodup)
    (hpn : ∀ vd ∈ dirs, (vd.products.map ProductDir.name).Nodup) :
    selectMatrix dirs none head g = selectMatrix dirs none head g' ∧
    selectMatrix dirs none head g = Except.ok (dirs.flatMap emitNonPR) ∧
    (∀ v p, candidateEligible dirs v p →
      (dirs.flatMap emitNonPR).count ⟨v, p, "linux/amd64", "ubuntu-24.04"⟩ = 1 ∧
      (dirs.flatMap emitNonPR).count ⟨v, p, "linux/arm64", "ubuntu-24.04-arm"⟩ = 1) ∧
    (∀ v p, ¬ candidateEligible dirs v p → ∀ platform runner,
      (dirs.flatMap emitNonPR).count ⟨v, p, platform, runner⟩ = 0) := by
  refine ⟨?_, selectMatrix_none_eq dirs head g, ?_, ?_⟩
  · rw [selectMatrix_none_eq, selectMatrix_none_eq]
  · intro v p hel
    constructor
    · exact count_dirs_pos (by rw [mem_matrixEntriesFor]; left; rfl) rfl rfl
        dirs hvn hpn hel
    · exact count_dirs_pos (by rw [mem_matrixEntriesFor]; right; rfl) rfl rfl
        dirs hvn hpn hel
  · intro v p hnel platform runner
    exact count_dirs_neg rfl rfl dirs hnel

/-- Witness for C5 at the spec's own example: under exclusion pattern
`*/ruby`, candidate `2024.1/ruby` is excluded and `2024.1/rust` is not. -/
theorem c5_nonpr_full_rebuild_witness :
    (stateRubyRust.flatMap emitNonPR).count
      ⟨"2024.1", "rust", "linux/amd64", "ubuntu-24.04"⟩ = 1 ∧
    (stateRubyRust.flatMap emitNonPR).count
      ⟨"2024.1", "rust", "linux/arm64", "ubuntu-24.04-arm"⟩ = 1 ∧
    (stateRubyRust.flatMap emitNonPR).count
      ⟨"2024.1", "ruby", "linux/amd64", "ubuntu-24.04"⟩ = 0 := by
  have h := c5_nonpr_full_rebuild stateRubyRust none zeroDiffOracle zeroDiffOracle
    (by decide) (by decide)
  have hel : candidateEligible stateRubyRust "2024.1" "rust" :=
    ⟨⟨"2024.1", [⟨"ruby", true⟩, ⟨"rust", true⟩]⟩, by decide, rfl, by decide,
      ⟨"rust", true⟩, by decide, rfl, by decide⟩
  have hnel : ¬ candidateEligible stateRubyRust "2024.1" "ruby" := by
    unfold candidateEligible
    decide
  exact ⟨(h.2.2.1 "2024.1" "rust" hel).1, (h.2.2.1 "2024.1" "rust" hel).2,
    h.2.2.2 "2024.1" "ruby" hnel "linux/amd64" "ubuntu-24.04"⟩

/-- C6: a variant whose base fragment file does not exist is skipped:
`generate_variant_dockerfile` returns the empty content, `write_dockerfile`
writes nothing for it, and the whole run's writes are exactly those of the
same manifest without that variant. -/
theorem c6_missing_base_fragment_skips_variant (fuel : Nat) (variant : String)
    (data : VariantSpec) (ij tp : Template) (rdir : String)
    (fs : RelPath → Option FileEntry) (m1 m2 : List (String × VariantSpec))
    (h : fs ["base", (data.fromId.getD variant) ++ ".Dockerfile"] = none) :
    generate_variant_dockerfile fuel variant data (baseFragDir fs) ij tp rdir = some "" ∧
    write_dockerfile variant "" = none ∧
    compile_variants fuel (m1 ++ (variant, data) :: m2) ij tp rdir fs
      = compile_variants fuel (m1 ++ m2) ij tp rdir fs := by
  have hgen : generate_variant_dockerfile fuel variant data (baseFragDir fs) ij tp rdir
      = some "" := generate_skip fuel variant data (baseFragDir fs) ij tp rdir h
  exact ⟨hgen, rfl, compile_variants_drop_skipped fuel variant data ij tp rdir fs hgen m1 m2⟩

/-- Witness for C6: a manifest listing the variant `absent` (no fragment
`absent.Dockerfile` exists) before the variant `go` compiles to exactly what
the manifest without `absent` compiles to. -/
theorem c6_missing_base_fragment_skips_variant_witness :
    generate_variant_dockerfile 1 "absent" ⟨none, none, none, none⟩ (baseFragDir fsGo)
      constTemplate constTemplate "2024.1" = some "" ∧
    write_dockerfile "absent" "" = none ∧
    compile_variants 1 ([] ++ ("absent", ⟨none, none, none, none⟩) :: manifestGo)
      constTemplate constTemplate "2024.1" fsGo
      = compile_variants 1 ([] ++ manifestGo) constTemplate constTemplate "2024.1" fsGo :=
  c6_missing_base_fragment_skips_variant 1 "absent" ⟨none, none, none, none⟩
    constTemplate constTemplate "2024.1" fsGo [] manifestGo rfl

/-- C7 (amended): with the target-ref signal present and the current-revision
signal absent, the selector performs no explicit configuration check: it
interpolates the literal text `None` as the head revision of the diff range,
and fails (with the diff tool's exit status re-raised) exactly when the diff
tool exits with a status other than 0 or 1 on that malformed range. -/
theorem c7_missing_head_failure_depends_on_diff_tool (tb : String)
    (g : String → String → Nat) (path : String)
    (h0 : g ("origin/" ++ tb ++ "..None") path ≠ 0)
    (h1 : g ("origin/" ++ tb ++ "..None") path ≠ 1) :
    changed_in_this_pr (some tb) none g path
      = Except.error (SelectorError.calledProcessError
          (g ("origin/" ++ tb ++ "..None") path)) := by
  have hrange : gitRange tb none = "origin/" ++ tb ++ "..None" := by
    show "origin/" ++ tb ++ ".." ++ "None" = "origin/" ++ tb ++ "..None"
    rw [String.append_assoc ("origin/" ++ tb) ".." "None"]
    rfl
  unfold changed_in_this_pr
  dsimp only
  rw [hrange, if_neg h0, if_neg h1]

/-- Witness for C7's amended statement: a diff tool exiting 128 on the
malformed range (as `git` does on an unresolvable revision) makes the
selector re-raise. -/
theorem c7_missing_head_failure_witness :
    (128 ≠ 0 ∧ 128 ≠ 1) ∧
    changed_in_this_pr (some "main") none (fun _ _ => 128) "2024.1/go/Dockerfile"
      = Except.error (SelectorError.calledProcessError 128) :=
  ⟨⟨by decide, by decide⟩,
    c7_missing_head_failure_depends_on_diff_tool "main" (fun _ _ => 128)
      "2024.1/go/Dockerfile" (by decide) (by decide)⟩

/-- Counterexample to C7 as stated: with the target-ref signal present and
the current-revision signal absent, a diff tool reporting "no differences"
(exit status 0) on the malformed range `origin/main..None` — as `git` does
in a repository where a ref named `None` resolves to an equal tree — makes
`changed_in_this_pr` silently return `False` (candidate treated as
unchanged): the selector does not fail loudly as a configuration error. -/
theorem c7_missing_head_silent_default :
    changed_in_this_pr (some "main") none (fun _ _ => 0) "2024.1/go/Dockerfile"
      = Except.ok false := rfl

/-- C8: the Descriptor Compiler is idempotent: if a run over `fs` produces
the writes `ws`, a second run over the written file system produces exactly
the same writes, byte for byte — the written `<variant>/Dockerfile` files
are disjoint from every path the compiler reads fragments from. -/
theorem c8_second_run_reproduces_writes (fuel : Nat)
    (manifest : List (String × VariantSpec)) (ij tp : Template) (rdir : String)
    (fs : RelPath → Option FileEntry) (ws : List (RelPath × String))
    (h : compile_variants fuel manifest ij tp rdir fs = some ws) :
    compile_variants fuel manifest ij tp rdir (applyWrites ws fs) = some ws := by
  have hpaths := compile_variants_write_paths fuel ij tp rdir fs manifest ws h
  have hfrag := applyWrites_baseFragDir fs ws hpaths
  rw [compile_variants_congr fuel ij tp rdir (applyWrites ws fs) fs hfrag manifest]
  exact h

/-- Witness for C8: re-running the one-variant compilation over the file
system including the first run's writes reproduces those writes. -/
theorem c8_second_run_reproduces_writes_witness :
    compile_variants 2 manifestGo constTemplate constTemplate "2024.1"
      (applyWrites fsGoWrites fsGo) = some fsGoWrites :=
  c8_second_run_reproduces_writes 2 manifestGo constTemplate constTemplate "2024.1"
    fsGo fsGoWrites rfl

/-- C9: no emitted matrix entry has linter `base`: a product folder named
`base` is skipped by the traversal in both modes, whatever its contents. -/
theorem c9_base_folder_never_emitted (dirs : List VersionDir)
    (targetBranch head : Option String) (g : String → String → Nat)
    (m : List MatrixEntry) (h : selectMatrix dirs targetBranch head g = Except.ok m) :
    ∀ e ∈ m, e.linter ≠ "base" := by
  intro e he
  cases targetBranch with
  | none =>
    rw [selectMatrix_none_eq] at h
    injection h with h
    subst h
    rcases List.mem_flatMap.mp he with ⟨vd, -, hx⟩
    rcases mem_emitNonPR.mp hx with ⟨-, pd, -, hkeep, hx'⟩
    rw [(version_of_mem_matrixEntriesFor hx').2]
    exact staticKeep_ne_base hkeep
  | some tb =>
    rcases (selectMatrix_some_ok_iff dirs tb head g m).mp h with ⟨-, rfl⟩
    rcases List.mem_flatMap.mp he with ⟨vd, -, hx⟩
    rcases mem_emitPR.mp hx with ⟨-, pd, -, hkeep, -, hx'⟩
    rw [(version_of_mem_matrixEntriesFor hx').2]
    exact staticKeep_ne_base hkeep

/-- Witness for C9: over a listing whose `base` folder carries a Dockerfile,
the emitted entry is for `go`, and its linter is not `base`. -/
theorem c9_base_folder_never_emitted_witness :
    (⟨"2024.1", "go", "linux/amd64", "ubuntu-24.04"⟩ : MatrixEntry).linter ≠ "base" :=
  c9_base_folder_never_emitted stateBaseGo none none zeroDiffOracle
    (stateBaseGo.flatMap emitNonPR) rfl
    ⟨"2024.1", "go", "linux/amd64", "ubuntu-24.04"⟩ (by decide)

/-- C10: an OS-level read error (the file exists but reading raises
`OSError`) is non-fatal: a variant whose base fragment is unreadable yields
empty content (first conjunct) and the run's writes equal those without the
variant (second conjunct); inside `substitute_from_directives` a directive
whose fragment file is unreadable is emitted unchanged as literal output
(third conjunct) and the remaining lines are still processed (fourth
conjunct). -/
theorem c10_read_errors_nonfatal :
    (∀ (fuel : Nat) (variant : String) (data : VariantSpec)
        (fragDir : String → Option FileEntry) (ij tp : Template) (rdir : String),
      fragDir ((data.fromId.getD variant) ++ ".Dockerfile") = some FileEntry.unreadable →
      generate_variant_dockerfile fuel variant data fragDir ij tp rdir = some "") ∧
    (∀ (fuel : Nat) (variant : String) (data : VariantSpec) (ij tp : Template)
        (rdir : String) (fs : RelPath → Option FileEntry)
        (m1 m2 : List (String × VariantSpec)),
      baseFragDir fs ((data.fromId.getD variant) ++ ".Dockerfile")
        = some FileEntry.unreadable →
      compile_variants fuel (m1 ++ (variant, data) :: m2) ij tp rdir fs
        = compile_variants fuel (m1 ++ m2) ij tp rdir fs) ∧
    (∀ (fuel : Nat) (fragDir : String → Option FileEntry) (line identifier : String),
      matchFromDirective line = some identifier →
      fragDir (identifier ++ ".Dockerfile") = some FileEntry.unreadable →
      resolveLine fuel fragDir line = some line) ∧
    (∀ (fuel : Nat) (fragDir : String → Option FileEntry) (content : String)
        (l1 : List String) (line : String) (l2 : List String) (identifier : String)
        (r1 r2 : List String),
      pySplitlines content = l1 ++ line :: l2 →
      matchFromDirective line = some identifier →
      fragDir (identifier ++ ".Dockerfile") = some FileEntry.unreadable →
      resolveLines fuel fragDir l1 = some r1 →
      resolveLines fuel fragDir l2 = some r2 →
      substitute_from_directives (fuel + 1) fragDir content
        = some (String.intercalate "\n" (r1 ++ line :: r2))) := by
  refine ⟨?_, ?_, resolveLine_unreadable, ?_⟩
  · intro fuel variant data fragDir ij tp rdir h
    exact generate_unreadable fuel variant data fragDir ij tp rdir h
  · intro fuel variant data ij tp rdir fs m1 m2 h
    exact compile_variants_drop_skipped fuel variant data ij tp rdir fs
      (generate_unreadable fuel variant data (baseFragDir fs) ij tp rdir h) m1 m2
  · intro fuel fragDir content l1 line l2 identifier r1 r2 hsplit hm hf h1 h2
    rw [substitute_from_directives_succ, hsplit]
    have hline : resolveLines fuel fragDir (line :: l2) = some (line :: r2) := by
      rw [resolveLines_cons, resolveLine_unreadable fuel fragDir line identifier hm hf]
      dsimp only
      rw [h2]
      rfl
    rw [resolveLines_append fuel fragDir l1 (line :: l2) r1 (line :: r2) h1 hline]
    rfl
